import Mathlib

/-!
Shallow embedding of the wss-rs working-set-size estimator.

The Rust sources embedded here are:
  * `src/idlemap.rs`  — the idle-page bitmap (`IdleMap`) and its bit test
    `is_page_active`;
  * `src/pagemap.rs`  — the per-region pagemap walker `process_region`,
    which reads 8-byte translation-table entries in chunks of
    `CHUNK_SIZE = 1024` entries;
  * `src/scanner.rs`  — the `/proc/pid/maps` line parser `parse_map_line`
    and `get_maps`;
  * `src/main.rs`     — the orchestrator: duration guard, region filter
    against `PAGE_OFFSET`, per-region accumulation, and the
    bias-corrected time estimate.

Modelling conventions:
  * Byte buffers are `List Nat` (each element one byte).  The pagemap
    file is modelled as the list of its 8-byte records already decoded
    to numbers (`u64::from_ne_bytes` is a bijection on 8-byte chunks and
    every read in the source is a whole number of entries, so chunk
    boundaries never split an entry).
  * A `read_exact` of `k` entries starting at entry index `pos` succeeds
    exactly when `pos + k` does not exceed the number of entries in the
    file; a failed read makes the whole `process_region` call return an
    error (`none`).
  * The unguarded `u64` subtraction `end_addr - start_addr` in
    `process_region` is embedded as `checkedSub`, whose `none` branch is
    the overflow/underflow condition of the source subtraction.
  * `f64` durations are idealised as rationals; `i64` microsecond
    arithmetic is `Int` with Rust's truncating division `Int.tdiv`
    (overflow is ignored: the quantities are elapsed times in
    microseconds, far below `2^63`).
-/

namespace Wss

/-! ### idlemap.rs -/

/-- One byte per element; mirrors `IdleMap { data : Vec<u8> }`. -/
def IdleMapData : Type := List Nat

/-- Embeds `IdleMap::is_page_active` (src/idlemap.rs:83-91):
byte index `pfn / 8`; out-of-range bytes are never active; otherwise
test bit `pfn % 8` of that byte, a cleared bit (0) meaning
accessed/active. -/
def is_page_active (data : List Nat) (pfn : Nat) : Bool :=
  let byte_idx := pfn / 8
  if byte_idx < data.length then
    let byte := data.getD byte_idx 0
    let bit := pfn % 8
    decide (byte &&& (1 <<< bit) = 0)
  else
    false

/-! ### pagemap.rs -/

def PAGEMAP_ENTRY_SIZE : Nat := 8

/-- Bits 0-54 (src/pagemap.rs:6). -/
def PFN_MASK : Nat := 0x7FFFFFFFFFFFFF

/-- Bit 63 (src/pagemap.rs:7). -/
def PRESENT_MASK : Nat := 1 <<< 63

/-- Entries per chunk (src/pagemap.rs:40). -/
def CHUNK_SIZE : Nat := 1024

/-- The per-entry body of the walker loop (src/pagemap.rs:54-72):
skip non-present entries, skip present entries whose 55-bit frame
number is zero, otherwise count the page as walked and additionally as
active when the idle bitmap says the frame was accessed. -/
def countEntry (idle : List Nat) (acc : Nat × Nat) (entry : Nat) : Nat × Nat :=
  if entry &&& PRESENT_MASK = 0 then
    acc
  else
    let pfn := entry &&& PFN_MASK
    if pfn = 0 then
      acc
    else
      (if is_page_active idle pfn then acc.1 + 1 else acc.1, acc.2 + 1)

/-- Guarded `u64` subtraction: `some (a - b)` when it cannot underflow,
`none` on the underflow branch of the source's unguarded `a - b`. -/
def checkedSub (a b : Nat) : Option Nat :=
  if b ≤ a then some (a - b) else none

/-- `let num_pages = (end_addr - start_addr) / page_size` with
`page_size = 4096` (src/pagemap.rs:29-30), the subtraction embedded as
`checkedSub`. -/
def num_pages (start_addr end_addr : Nat) : Option Nat :=
  (checkedSub end_addr start_addr).map (fun d => d / 4096)

/-- The chunked read loop of `process_region` (src/pagemap.rs:47-75):
`pos` is the index of the next translation-table entry, `remaining` the
number of entries still to process, `chunk` the chunk capacity in
entries.  Each iteration reads `min chunk remaining` entries; a read
past the end of the table fails the whole call.  The `chunk = 0` branch
is unreachable from the source (its chunk capacity is the constant
1024); it only makes the recursion well-founded. -/
def chunkGo (table idle : List Nat) (chunk : Nat) (pos remaining : Nat)
    (acc : Nat × Nat) : Option (Nat × Nat) :=
  if remaining = 0 then
    some acc
  else if chunk = 0 then
    none
  else
    if pos + min chunk remaining ≤ table.length then
      chunkGo table idle chunk (pos + min chunk remaining) (remaining - min chunk remaining)
        (((table.drop pos).take (min chunk remaining)).foldl (countEntry idle) acc)
    else
      none
termination_by remaining
decreasing_by
  simp_wf
  omega

/-- `Pagemap::process_region` generalised over the chunk capacity (in
entries).  The source fixes the capacity to `CHUNK_SIZE`; see
`process_region`. -/
def process_region_chunk (chunkEntries : Nat) (table idle : List Nat)
    (start_addr end_addr : Nat) : Option (Nat × Nat) :=
  match num_pages start_addr end_addr with
  | none => none
  | some n => chunkGo table idle chunkEntries (start_addr / 4096) n (0, 0)

/-- Embeds `Pagemap::process_region` (src/pagemap.rs:23-78): seek to
entry `start_addr / 4096`, then read and count `num_pages` entries in
chunks of `CHUNK_SIZE`. -/
def process_region (table idle : List Nat) (start_addr end_addr : Nat) :
    Option (Nat × Nat) :=
  process_region_chunk CHUNK_SIZE table idle start_addr end_addr

/-- Modelled from the spec's words for the refinement claim: a single
unbounded read of all `n` entries, succeeding exactly when the table
holds them (a zero-length read always succeeds), followed by one pass
of the per-entry counting loop. -/
def process_region_single (table idle : List Nat) (start_addr end_addr : Nat) :
    Option (Nat × Nat) :=
  match num_pages start_addr end_addr with
  | none => none
  | some n =>
    let svpn := start_addr / 4096
    if n = 0 ∨ svpn + n ≤ table.length then
      some (((table.drop svpn).take n).foldl (countEntry idle) (0, 0))
    else
      none

/-! ### chunked/unchunked equivalence -/

theorem chunkGo_eq (table idle : List Nat) (chunk : Nat) (hc : 0 < chunk) :
    ∀ remaining pos acc, chunkGo table idle chunk pos remaining acc =
      if remaining = 0 ∨ pos + remaining ≤ table.length then
        some (((table.drop pos).take remaining).foldl (countEntry idle) acc)
      else
        none := by
  intro remaining
  induction remaining using Nat.strong_induction_on with
  | _ remaining ih =>
    intro pos acc
    rw [chunkGo]
    by_cases h0 : remaining = 0
    · subst h0
      simp
    · have hcne : ¬ chunk = 0 := Nat.pos_iff_ne_zero.mp hc
      rw [if_neg h0, if_neg hcne]
      set k := min chunk remaining with hk
      have hk1 : 1 ≤ k := by omega
      have hkr : k ≤ remaining := by omega
      have hsplit :
          (table.drop pos).take remaining =
            (table.drop pos).take k ++ ((table.drop (pos + k)).take (remaining - k)) := by
        conv_lhs => rw [show remaining = k + (remaining - k) from by omega]
        rw [List.take_add, List.drop_drop]
      by_cases hread : pos + k ≤ table.length
      · rw [if_pos hread, ih (remaining - k) (by omega) (pos + k)]
        by_cases hcond : pos + remaining ≤ table.length
        · rw [if_pos (by omega : remaining - k = 0 ∨ pos + k + (remaining - k) ≤ table.length),
            if_pos (Or.inr hcond), hsplit, List.foldl_append]
        · rw [if_neg (by omega :
              ¬ (remaining - k = 0 ∨ pos + k + (remaining - k) ≤ table.length)),
            if_neg (by omega : ¬ (remaining = 0 ∨ pos + remaining ≤ table.length))]
      · rw [if_neg hread,
          if_neg (by omega : ¬ (remaining = 0 ∨ pos + remaining ≤ table.length))]

theorem process_region_chunk_eq_single (c : Nat) (hc : 0 < c)
    (table idle : List Nat) (start_addr end_addr : Nat) :
    process_region_chunk c table idle start_addr end_addr =
      process_region_single table idle start_addr end_addr := by
  unfold process_region_chunk process_region_single
  cases num_pages start_addr end_addr with
  | none => rfl
  | some n =>
    simp only []
    rw [chunkGo_eq table idle c hc n (start_addr / 4096) (0, 0)]

theorem process_region_eq_single (table idle : List Nat) (start_addr end_addr : Nat) :
    process_region table idle start_addr end_addr =
      process_region_single table idle start_addr end_addr := by
  unfold process_region
  exact process_region_chunk_eq_single CHUNK_SIZE (by decide) table idle start_addr end_addr

/-! ### scanner.rs -/

/-- Mirrors `MemoryRegion` (src/scanner.rs:4-9); the unused `_perms`
and `_pathname` string fields are dropped.  `end` is a Lean keyword, so
the source's `end` field is `endAddr`. -/
structure MemoryRegion where
  start : Nat
  endAddr : Nat
deriving DecidableEq

/-- Splits a character list at every character satisfying `p`, keeping
empty pieces. -/
def splitOnPredAux (p : Char → Bool) : List Char → List Char → List (List Char)
  | [], cur => [cur.reverse]
  | c :: rest, cur =>
    if p c then cur.reverse :: splitOnPredAux p rest []
    else splitOnPredAux p rest (c :: cur)

/-- Rust's `str::split(sep)` for a one-character separator. -/
def splitOnChar (sep : Char) (cs : List Char) : List (List Char) :=
  splitOnPredAux (fun c => decide (c = sep)) cs []

/-- The Unicode `White_Space` property — the predicate of Rust's
`char::is_whitespace`. -/
def isRustWhitespace (c : Char) : Bool :=
  decide (c = ' ' ∨ ('\u0009' ≤ c ∧ c ≤ '\u000D') ∨ c = '\u0085' ∨ c = '\u00A0' ∨
    c = '\u1680' ∨ ('\u2000' ≤ c ∧ c ≤ '\u200A') ∨ c = '\u2028' ∨ c = '\u2029' ∨
    c = '\u202F' ∨ c = '\u205F' ∨ c = '\u3000')

/-- Rust's `str::split_whitespace`: the fields are the maximal runs of
non-whitespace characters.  Splitting at every single whitespace
character and dropping the empty pieces is the same thing: consecutive,
leading and trailing whitespace only ever produce empty pieces. -/
def splitWhitespace (cs : List Char) : List (List Char) :=
  (splitOnPredAux isRustWhitespace cs []).filter (fun part => ¬ part = [])

/-- Value of one hexadecimal digit, or `none`. -/
def hexVal (c : Char) : Option Nat :=
  if '0' ≤ c ∧ c ≤ '9' then some (c.toNat - 48)
  else if 'a' ≤ c ∧ c ≤ 'f' then some (c.toNat - 87)
  else if 'A' ≤ c ∧ c ≤ 'F' then some (c.toNat - 55)
  else none

def hexDigitsAcc (acc : Nat) : List Char → Option Nat
  | [] => some acc
  | c :: rest =>
    match hexVal c with
    | none => none
    | some v => hexDigitsAcc (acc * 16 + v) rest

/-- Embeds `u64::from_str_radix(s, 16)`: an optional leading plus sign,
then at least one hexadecimal digit, value below `2 ^ 64`. -/
def from_str_radix_16 (cs : List Char) : Option Nat :=
  let digits := match cs with
    | '+' :: rest => rest
    | other => other
  if digits = [] then none
  else
    match hexDigitsAcc 0 digits with
    | none => none
    | some v => if v < 2 ^ 64 then some v else none

/-- Embeds `parse_map_line` (src/scanner.rs:41-64): take the first
whitespace-separated field, split it on the hyphen into exactly two
parts, and parse both as hexadecimal `u64` addresses; any failure
yields `none`. -/
def parse_map_line (line : List Char) : Option MemoryRegion :=
  let parts := splitWhitespace line
  if parts.length < 1 then none
  else
    let range_parts := splitOnChar '-' (parts.getD 0 [])
    if ¬ range_parts.length = 2 then none
    else
      match from_str_radix_16 (range_parts.getD 0 []),
            from_str_radix_16 (range_parts.getD 1 []) with
      | some s, some e => some ⟨s, e⟩
      | _, _ => none

/-- Embeds `Scanner::get_maps` (src/scanner.rs:20-38): parse every line,
keeping the regions of the lines that parse. -/
def get_maps (lines : List (List Char)) : List MemoryRegion :=
  lines.filterMap parse_map_line

/-! ### main.rs -/

/-- `0xffff880000000000` (src/main.rs:17). -/
def PAGE_OFFSET : Nat := 0xffff880000000000

/-- One iteration of the accumulation loop of `main` (src/main.rs:88-105):
regions starting strictly above `PAGE_OFFSET` are skipped; otherwise the
walker runs and a successful result is added to the totals while a
failed region leaves them unchanged. -/
def scanStep (pm idle : List Nat) (acc : Nat × Nat) (r : MemoryRegion) : Nat × Nat :=
  if PAGE_OFFSET < r.start then
    acc
  else
    match process_region pm idle r.start r.endAddr with
    | some (a, w) => (acc.1 + a, acc.2 + w)
    | none => acc

/-- The whole accumulation loop over the enumerated regions. -/
def scanRegions (pm idle : List Nat) (regions : List MemoryRegion) : Nat × Nat :=
  regions.foldl (scanStep pm idle) (0, 0)

/-- The bias-corrected elapsed-time estimate in microseconds
(src/main.rs:115-124): `total = ts4 - ts1`, `read_walk = ts4 - ts3`,
`est = total - set/2 - read_walk/2`, all in `i64` microseconds with
Rust's truncating division. -/
def est_micros (ts1 ts3 ts4 set_us : Int) : Int :=
  (ts4 - ts1) - Int.tdiv set_us 2 - Int.tdiv (ts4 - ts3) 2

/-- The externally observable file-system interactions of one run, in
program order. -/
inductive FsEffect where
  | setIdle
  | loadIdle
  | openMaps
  | openPagemap
deriving DecidableEq

/-- The environment a run executes against: whether the idle-bitmap
control file exists and is writable, and the contents (or absence) of
the idle bitmap, the maps listing and the pagemap. -/
structure World where
  idlemapExists : Bool
  setWriteOk : Bool
  idlemapData : Option (List Nat)
  mapsLines : Option (List (List Char))
  pagemapData : Option (List Nat)

/-- Embeds the control flow of `main` (src/main.rs:29-131): the duration
guard runs before any file interaction; each later phase exits with
status 1 on failure.  Returns the exit status, the file-system effects
performed, and the accumulated totals when the scan ran. -/
def main_model (duration : ℚ) (w : World) : Int × List FsEffect × Option (Nat × Nat) :=
  if duration < 1 / 100 then
    (1, [], none)
  else if w.idlemapExists = false ∨ w.setWriteOk = false then
    (1, [FsEffect.setIdle], none)
  else
    match w.idlemapData with
    | none => (1, [FsEffect.setIdle, FsEffect.loadIdle], none)
    | some idle =>
      match w.mapsLines with
      | none => (1, [FsEffect.setIdle, FsEffect.loadIdle, FsEffect.openMaps], none)
      | some lines =>
        match w.pagemapData with
        | none =>
          (1, [FsEffect.setIdle, FsEffect.loadIdle, FsEffect.openMaps,
            FsEffect.openPagemap], none)
        | some pm =>
          (0, [FsEffect.setIdle, FsEffect.loadIdle, FsEffect.openMaps,
            FsEffect.openPagemap], some (scanRegions pm idle (get_maps lines)))

/-! ### helper lemmas -/

theorem countEntry_le (idle : List Nat) (acc : Nat × Nat) (entry : Nat)
    (h : acc.1 ≤ acc.2) : (countEntry idle acc entry).1 ≤ (countEntry idle acc entry).2 := by
  unfold countEntry
  by_cases h1 : entry &&& PRESENT_MASK = 0
  · simp [h1, h]
  · by_cases h2 : entry &&& PFN_MASK = 0
    · simp [h1, h2, h]
    · by_cases h3 : is_page_active idle (entry &&& PFN_MASK)
      · simp [h1, h2, h3]
        omega
      · simp [h1, h2, h3]
        omega

theorem foldl_countEntry_le (idle : List Nat) (entries : List Nat) :
    ∀ acc : Nat × Nat, acc.1 ≤ acc.2 →
      (entries.foldl (countEntry idle) acc).1 ≤ (entries.foldl (countEntry idle) acc).2 := by
  induction entries with
  | nil => intro acc h; exact h
  | cons e rest ih =>
    intro acc h
    rw [List.foldl_cons]
    exact ih (countEntry idle acc e) (countEntry_le idle acc e h)

/-- Evaluation of the walker on the synthetic three-entry table of the
end-to-end scenario. -/
theorem pr_example_eval :
    process_region [2 ^ 63 + 10, 0, 2 ^ 63 + 20] [0, 4, 0] 0 12288 = some (1, 2) := by
  rw [process_region_eq_single]
  decide

/-- Evaluation of the walker on an empty (truncated) table: the read of
the single requested entry fails. -/
theorem pr_fail_eval : process_region [] [] 0 4096 = none := by
  rw [process_region_eq_single]
  decide

theorem scanStep_some (pm idle : List Nat) (acc : Nat × Nat) (r : MemoryRegion) (a w : Nat)
    (hle : ¬ PAGE_OFFSET < r.start)
    (hpr : process_region pm idle r.start r.endAddr = some (a, w)) :
    scanStep pm idle acc r = (acc.1 + a, acc.2 + w) := by
  unfold scanStep
  rw [if_neg hle, hpr]

theorem scanStep_none (pm idle : List Nat) (acc : Nat × Nat) (r : MemoryRegion)
    (h : process_region pm idle r.start r.endAddr = none) :
    scanStep pm idle acc r = acc := by
  unfold scanStep
  rw [h]
  by_cases hlt : PAGE_OFFSET < r.start
  · rw [if_pos hlt]
  · rw [if_neg hlt]

/-! ### the claims -/

/-- Claim C1: an entry with the present bit (bit 63) unset increments
neither counter; a present entry whose low-55-bit frame number is zero
increments neither counter; any other entry increments `walked_pages`
and increments `active_pages` exactly when `is_page_active` holds of
its frame number.  On the synthetic three-entry table `[present
frame 10, not present, present frame 20]` with frame 10 idle and frame
20 accessed, the walker returns `(active, walked) = (1, 2)`. -/
theorem claim_C1 :
    (∀ (idle : List Nat) (entry a w : Nat), entry &&& PRESENT_MASK = 0 →
      countEntry idle (a, w) entry = (a, w)) ∧
    (∀ (idle : List Nat) (entry a w : Nat), ¬ entry &&& PRESENT_MASK = 0 →
      entry &&& PFN_MASK = 0 → countEntry idle (a, w) entry = (a, w)) ∧
    (∀ (idle : List Nat) (entry a w : Nat), ¬ entry &&& PRESENT_MASK = 0 →
      ¬ entry &&& PFN_MASK = 0 →
      countEntry idle (a, w) entry =
        (if is_page_active idle (entry &&& PFN_MASK) then a + 1 else a, w + 1)) ∧
    process_region [2 ^ 63 + 10, 0, 2 ^ 63 + 20] [0, 4, 0] 0 12288 = some (1, 2) :=
  ⟨fun idle entry a w h1 => by unfold countEntry; rw [if_pos h1],
   fun idle entry a w h1 h2 => by unfold countEntry; rw [if_neg h1, if_pos h2],
   fun idle entry a w h1 h2 => by unfold countEntry; rw [if_neg h1, if_neg h2],
   pr_example_eval⟩

/-- Witness for C1 at concrete entries: a non-present entry, a present
entry with frame number 0, and a present entry with frame number 10
against the scenario bitmap (frame 10 idle, so not active). -/
theorem claim_C1_witness :
    ((2 : Nat) &&& PRESENT_MASK = 0 ∧ countEntry [] (5, 7) 2 = (5, 7)) ∧
    (¬ (2 ^ 63 : Nat) &&& PRESENT_MASK = 0 ∧ (2 ^ 63 : Nat) &&& PFN_MASK = 0 ∧
      countEntry [] (5, 7) (2 ^ 63) = (5, 7)) ∧
    (¬ (2 ^ 63 + 10 : Nat) &&& PRESENT_MASK = 0 ∧ ¬ (2 ^ 63 + 10 : Nat) &&& PFN_MASK = 0 ∧
      countEntry [0, 4, 0] (0, 0) (2 ^ 63 + 10) = (0, 1)) :=
  ⟨⟨by decide, claim_C1.1 [] 2 5 7 (by decide)⟩,
   ⟨by decide, by decide, claim_C1.2.1 [] (2 ^ 63) 5 7 (by decide) (by decide)⟩,
   ⟨by decide, by decide,
    (claim_C1.2.2.1 [0, 4, 0] (2 ^ 63 + 10) 0 0 (by decide) (by decide)).trans (by decide)⟩⟩

/-- Claim C2: `is_page_active` returns true exactly when the byte at
offset `F / 8` lies inside the loaded buffer and bit `F % 8` of that
byte is cleared; any frame whose byte offset reaches past the buffer is
reported inactive. -/
theorem claim_C2 :
    ∀ (data : List Nat) (F : Nat),
      (is_page_active data F = true ↔
        F / 8 < data.length ∧ Nat.testBit (data.getD (F / 8) 0) (F % 8) = false) ∧
      (data.length ≤ F / 8 → is_page_active data F = false) := by
  intro data F
  have hmask : ∀ b i : Nat, (b &&& (1 <<< i) = 0) ↔ Nat.testBit b i = false := by
    intro b i
    rw [Nat.one_shiftLeft, Nat.and_two_pow]
    constructor
    · intro h
      rcases Nat.mul_eq_zero.mp h with h' | h'
      · cases htb : Nat.testBit b i
        · rfl
        · rw [htb] at h'
          simp at h'
      · exact absurd h' (Nat.pos_iff_ne_zero.mp (Nat.pos_pow_of_pos i (by norm_num)))
    · intro h
      rw [h]
      simp
  constructor
  · unfold is_page_active
    by_cases hlen : F / 8 < data.length
    · rw [if_pos hlen]
      simp only [decide_eq_true_eq]
      rw [hmask]
      constructor
      · intro h; exact ⟨hlen, h⟩
      · intro h; exact h.2
    · rw [if_neg hlen]
      constructor
      · intro h; simp at h
      · intro h; exact absurd h.1 hlen
  · intro hout
    unfold is_page_active
    rw [if_neg (by omega)]

/-- Witness for C2 on the scenario bitmap `[0, 4, 0]`: frame 10 has its
bit set (idle, not active), frame 20 has its bit cleared (active), and
frame 100 lies past the 3-byte buffer. -/
theorem claim_C2_witness :
    (is_page_active [0, 4, 0] 20 = true ↔
      20 / 8 < ([0, 4, 0] : List Nat).length ∧
        Nat.testBit (([0, 4, 0] : List Nat).getD (20 / 8) 0) (20 % 8) = false) ∧
    (([0, 4, 0] : List Nat).length ≤ 100 / 8 → is_page_active [0, 4, 0] 100 = false) :=
  ⟨(claim_C2 [0, 4, 0] 20).1, (claim_C2 [0, 4, 0] 100).2⟩

/-- A translation table long enough to cover the page at virtual
address `PAGE_OFFSET`, every entry present with frame number 10. -/
def boundaryTable : List Nat := List.replicate (PAGE_OFFSET / 4096 + 1) (2 ^ 63 + 10)

theorem boundary_region_eval :
    process_region boundaryTable [] PAGE_OFFSET (PAGE_OFFSET + 4096) = some (0, 1) := by
  rw [process_region_eq_single]
  unfold process_region_single
  have h1 : num_pages PAGE_OFFSET (PAGE_OFFSET + 4096) = some 1 := by
    unfold num_pages checkedSub
    rw [if_pos (by omega)]
    show some ((PAGE_OFFSET + 4096 - PAGE_OFFSET) / 4096) = some 1
    congr 1
  rw [h1]
  simp only [boundaryTable, List.length_replicate]
  rw [if_pos (Or.inr (by omega))]
  rw [List.drop_replicate, List.take_replicate]
  have h2 : PAGE_OFFSET / 4096 + 1 - PAGE_OFFSET / 4096 = 1 := by omega
  rw [h2]
  decide

/-- Claim C3 is false as stated: a region whose start address equals
the kernel boundary `PAGE_OFFSET` is "at or above" the threshold, yet
the orchestrator's strict comparison passes it to the walker, and
against a sufficiently long translation table it contributes a nonzero
walked count. -/
theorem claim_C3_counterexample :
    PAGE_OFFSET ≤ (MemoryRegion.mk PAGE_OFFSET (PAGE_OFFSET + 4096)).start ∧
    ¬ scanStep boundaryTable [] (0, 0) (MemoryRegion.mk PAGE_OFFSET (PAGE_OFFSET + 4096)) =
      (0, 0) := by
  constructor
  · exact Nat.le_refl _
  · rw [scanStep_some boundaryTable [] (0, 0)
      (MemoryRegion.mk PAGE_OFFSET (PAGE_OFFSET + 4096)) 0 1
      (Nat.lt_irrefl PAGE_OFFSET) boundary_region_eval]
    intro hcontra
    exact absurd (congrArg Prod.snd hcontra) (by decide)

/-- Claim C3 (amended): the orchestrator excludes a region from
scanning whenever its start address is strictly above the fixed
high-address threshold `PAGE_OFFSET`; every region with start at or
below the threshold is passed to the walker, and contributes its
walker result to the accumulated counts when the walk succeeds. -/
theorem claim_C3_amended :
    ∀ (pm idle : List Nat) (acc : Nat × Nat) (r : MemoryRegion),
      (PAGE_OFFSET < r.start → scanStep pm idle acc r = acc) ∧
      (r.start ≤ PAGE_OFFSET →
        scanStep pm idle acc r =
          match process_region pm idle r.start r.endAddr with
          | some (a, w) => (acc.1 + a, acc.2 + w)
          | none => acc) := by
  intro pm idle acc r
  constructor
  · intro h
    unfold scanStep
    rw [if_pos h]
  · intro h
    unfold scanStep
    rw [if_neg (by omega)]

/-- Witness for the amended C3: a region starting one page above the
threshold is skipped, and the scenario region starting at 0 is walked
and merged into the totals. -/
theorem claim_C3_amended_witness :
    (PAGE_OFFSET < PAGE_OFFSET + 4096 ∧
      scanStep [] [] (3, 4) (MemoryRegion.mk (PAGE_OFFSET + 4096) (PAGE_OFFSET + 8192)) =
        (3, 4)) ∧
    ((0 : Nat) ≤ PAGE_OFFSET ∧
      scanStep [2 ^ 63 + 10, 0, 2 ^ 63 + 20] [0, 4, 0] (3, 4) (MemoryRegion.mk 0 12288) =
        match process_region [2 ^ 63 + 10, 0, 2 ^ 63 + 20] [0, 4, 0] 0 12288 with
        | some (a, w) => (3 + a, 4 + w)
        | none => (3, 4)) :=
  ⟨⟨by decide,
    (claim_C3_amended [] [] (3, 4)
      (MemoryRegion.mk (PAGE_OFFSET + 4096) (PAGE_OFFSET + 8192))).1 (by decide)⟩,
   ⟨by decide,
    (claim_C3_amended [2 ^ 63 + 10, 0, 2 ^ 63 + 20] [0, 4, 0] (3, 4)
      (MemoryRegion.mk 0 12288)).2 (by decide)⟩⟩

/-- A maps line whose address range is `10-5`: both fields are valid
hexadecimal numbers but the start exceeds the end. -/
def badLine : List Char := ['1', '0', '-', '5', ' ', 'r', '-', 'x', 'p']

/-- The same range with the fields separated by a tab instead of a
space, which `str::split_whitespace` treats identically. -/
def badLineTab : List Char := ['1', '0', '-', '5', '\u0009', 'r', '-', 'x', 'p']

/-- Claim C4 is false as stated: each of the lines `10-5 r-xp`
(space-separated) and `10-5<TAB>r-xp` (tab-separated) parses — both
addresses are valid hexadecimal — yet the returned regions have
`start = 0x10 > end = 0x5`: the parser performs no `start <= end`
check. -/
theorem claim_C4_counterexample :
    get_maps [badLine, badLineTab] = [MemoryRegion.mk 16 5, MemoryRegion.mk 16 5] ∧
    ¬ (16 : Nat) ≤ 5 := by
  constructor
  · decide
  · decide

/-- Claim C4 (amended): `get_maps` does not enforce `start <= end`;
every region it returns satisfies `start <= end` whenever every line
that parses has its first address at most its second — which is the
case for genuine kernel maps listings. -/
theorem claim_C4_amended :
    ∀ lines : List (List Char),
      lines.all (fun l =>
        match parse_map_line l with
        | some r => decide (r.start ≤ r.endAddr)
        | none => true) = true →
      ∀ r ∈ get_maps lines, r.start ≤ r.endAddr := by
  intro lines hall r hr
  rcases List.mem_filterMap.mp hr with ⟨l, hl, hparse⟩
  have := List.all_eq_true.mp hall l hl
  rw [hparse] at this
  exact of_decide_eq_true this

/-- Witness for the amended C4 on a well-formed two-line listing. -/
theorem claim_C4_amended_witness :
    ([['4', '0', '0', '0', '0', '0', '-', '4', '0', 'b', '0', '0', '0', ' ', 'r'],
      ['f', 'f', '0', '-', 'f', 'f', '8']] : List (List Char)).all (fun l =>
        match parse_map_line l with
        | some r => decide (r.start ≤ r.endAddr)
        | none => true) = true ∧
    ∀ r ∈ get_maps [['4', '0', '0', '0', '0', '0', '-', '4', '0', 'b', '0', '0', '0', ' ', 'r'],
      ['f', 'f', '0', '-', 'f', 'f', '8']], r.start ≤ r.endAddr :=
  ⟨by decide, claim_C4_amended _ (by decide)⟩

/-- Claim C5: whenever `process_region` succeeds, the returned pair
satisfies `active_pages <= walked_pages`, for any region, any bitmap
and any translation-table content. -/
theorem claim_C5 :
    ∀ (table idle : List Nat) (start_addr end_addr a w : Nat),
      process_region table idle start_addr end_addr = some (a, w) → a ≤ w := by
  intro table idle start_addr end_addr a w h
  rw [process_region_eq_single] at h
  unfold process_region_single at h
  rcases hnp : num_pages start_addr end_addr with _ | n
  · rw [hnp] at h
    exact absurd h (by simp)
  · rw [hnp] at h
    simp only [] at h
    by_cases hcond : n = 0 ∨ start_addr / 4096 + n ≤ table.length
    · rw [if_pos hcond] at h
      have := foldl_countEntry_le idle ((table.drop (start_addr / 4096)).take n) (0, 0)
        (Nat.le_refl 0)
      rw [Option.some_inj.mp h] at this
      exact this
    · rw [if_neg hcond] at h
      exact absurd h (by simp)

/-- Witness for C5 on the synthetic scenario: the walker returns
`(1, 2)` and indeed `1 <= 2`. -/
theorem claim_C5_witness :
    process_region [2 ^ 63 + 10, 0, 2 ^ 63 + 20] [0, 4, 0] 0 12288 = some (1, 2) ∧
    (1 : Nat) ≤ 2 :=
  ⟨pr_example_eval,
   claim_C5 [2 ^ 63 + 10, 0, 2 ^ 63 + 20] [0, 4, 0] 0 12288 1 2 pr_example_eval⟩

/-- Claim C6: reading the translation table in bounded chunks of any
size that is a positive multiple of 8 bytes (so a whole number of
8-byte entries, never splitting one) produces exactly the result of a
single unbounded read; in particular the source's fixed 8192-byte
chunking does. -/
theorem claim_C6 :
    ∀ (table idle : List Nat) (start_addr end_addr chunkBytes : Nat),
      0 < chunkBytes → 8 ∣ chunkBytes →
      (process_region_chunk (chunkBytes / 8) table idle start_addr end_addr =
        process_region_single table idle start_addr end_addr ∧
       process_region table idle start_addr end_addr =
        process_region_single table idle start_addr end_addr) := by
  intro table idle start_addr end_addr chunkBytes hpos hdvd
  constructor
  · refine process_region_chunk_eq_single (chunkBytes / 8) ?_ table idle start_addr end_addr
    rcases hdvd with ⟨k, hk⟩
    subst hk
    have hk0 : 0 < k := by omega
    omega
  · exact process_region_eq_single table idle start_addr end_addr

/-- Witness for C6: an 8-byte chunk (one entry per read) on the
scenario table gives the same `(1, 2)` as the unbounded read. -/
theorem claim_C6_witness :
    (0 : Nat) < 8 ∧ (8 : Nat) ∣ 8 ∧
    process_region_chunk (8 / 8) [2 ^ 63 + 10, 0, 2 ^ 63 + 20] [0, 4, 0] 0 12288 =
      process_region_single [2 ^ 63 + 10, 0, 2 ^ 63 + 20] [0, 4, 0] 0 12288 :=
  ⟨by decide, by decide,
   (claim_C6 [2 ^ 63 + 10, 0, 2 ^ 63 + 20] [0, 4, 0] 0 12288 8 (by decide) (by decide)).1⟩

/-- Claim C7: the reported estimate is
`est = (ts4 - ts1) - set/2 - (ts4 - ts3)/2` in microseconds; for
non-negative overheads it never exceeds the total elapsed time, and it
equals the total when both overheads are zero. -/
theorem claim_C7 :
    ∀ ts1 ts3 ts4 set_us : Int,
      0 ≤ set_us → 0 ≤ ts4 - ts3 →
      (est_micros ts1 ts3 ts4 set_us ≤ ts4 - ts1 ∧
       (set_us = 0 → ts4 - ts3 = 0 → est_micros ts1 ts3 ts4 set_us = ts4 - ts1)) := by
  intro ts1 ts3 ts4 set_us hset hrw
  have h1 : 0 ≤ Int.tdiv set_us 2 := Int.tdiv_nonneg hset (by norm_num)
  have h2 : 0 ≤ Int.tdiv (ts4 - ts3) 2 := Int.tdiv_nonneg hrw (by norm_num)
  constructor
  · unfold est_micros
    omega
  · intro hs0 hr0
    unfold est_micros
    rw [hs0, hr0, Int.zero_tdiv]
    ring

/-- Witness for C7 at `ts1 = 0`, `ts3 = 90`, `ts4 = 100`,
`set_us = 10`. -/
theorem claim_C7_witness :
    (0 : Int) ≤ 10 ∧ (0 : Int) ≤ 100 - 90 ∧
    (est_micros 0 90 100 10 ≤ 100 - 0 ∧
     ((10 : Int) = 0 → (100 : Int) - 90 = 0 → est_micros 0 90 100 10 = 100 - 0)) :=
  ⟨by decide, by decide, claim_C7 0 90 100 10 (by decide) (by decide)⟩

/-- Claim C8: any sampling duration strictly below 0.01 seconds makes
the run exit with status 1 before any file interaction: no file-system
effect is performed, so the idle-tracking state is never touched and no
scan result is produced. -/
theorem claim_C8 :
    ∀ (duration : ℚ) (w : World),
      duration < 1 / 100 → main_model duration w = (1, [], none) := by
  intro duration w h
  unfold main_model
  rw [if_pos h]

/-- Witness for C8 at duration 0.005 seconds. -/
theorem claim_C8_witness :
    (1 / 200 : ℚ) < 1 / 100 ∧
    main_model (1 / 200) (World.mk true true none none none) = (1, [], none) :=
  ⟨by norm_num, claim_C8 (1 / 200) (World.mk true true none none none) (by norm_num)⟩

/-- Claim C9: a region whose walk fails with an I/O error contributes
nothing to the accumulated totals, and the scan of all other regions —
before and after it — proceeds exactly as if the failing region were
absent. -/
theorem claim_C9 :
    ∀ (pm idle : List Nat) (before after : List MemoryRegion) (r : MemoryRegion),
      process_region pm idle r.start r.endAddr = none →
      scanRegions pm idle (before ++ r :: after) = scanRegions pm idle (before ++ after) := by
  intro pm idle before after r h
  unfold scanRegions
  rw [List.foldl_append, List.foldl_append, List.foldl_cons,
    scanStep_none pm idle _ r h]

/-- Witness for C9: a one-page region against an empty (truncated)
translation table fails its read; dropping it leaves the totals of the
empty region list. -/
theorem claim_C9_witness :
    process_region [] [] 0 4096 = none ∧
    scanRegions [] [] ([] ++ MemoryRegion.mk 0 4096 :: []) = scanRegions [] [] ([] ++ []) :=
  ⟨pr_fail_eval, claim_C9 [] [] [] [] (MemoryRegion.mk 0 4096) pr_fail_eval⟩

/-- Claim C10: the page count of `process_region` is the unguarded
unsigned subtraction `(end_addr - start_addr) / 4096`; it is defined
exactly under the precondition `start_addr <= end_addr`, where it
equals `(end_addr - start_addr) / 4096`; the underflow branch is
reached for example at `start_addr = 4096, end_addr = 0`, and a region
with `end_addr < start_addr` makes the whole walk fail. -/
theorem claim_C10 :
    (∀ start_addr end_addr : Nat,
      (num_pages start_addr end_addr).isSome = true ↔ start_addr ≤ end_addr) ∧
    (∀ start_addr end_addr : Nat, start_addr ≤ end_addr →
      num_pages start_addr end_addr = some ((end_addr - start_addr) / 4096)) ∧
    num_pages 4096 0 = none ∧
    (∀ (table idle : List Nat) (start_addr end_addr : Nat), end_addr < start_addr →
      process_region table idle start_addr end_addr = none) := by
  refine ⟨?_, ?_, by decide, ?_⟩
  · intro s e
    unfold num_pages checkedSub
    by_cases h : s ≤ e
    · rw [if_pos h]
      simp [h]
    · rw [if_neg h]
      simp [h]
  · intro s e h
    unfold num_pages checkedSub
    rw [if_pos h]
    rfl
  · intro table idle s e h
    unfold process_region process_region_chunk
    rw [show num_pages s e = none from by unfold num_pages checkedSub; rw [if_neg (by omega)]; rfl]

/-- Witness for C10: the page count exists at the ordered pair
`(0, 8192)` and equals 2, and the walk of the reversed pair
`(4096, 0)` fails outright. -/
theorem claim_C10_witness :
    ((num_pages 0 8192).isSome = true ↔ (0 : Nat) ≤ 8192) ∧
    num_pages 0 8192 = some 2 ∧
    process_region [] [] 4096 0 = none :=
  ⟨claim_C10.1 0 8192,
   (claim_C10.2.1 0 8192 (by decide)).trans (by decide),
   claim_C10.2.2.2 [] [] 4096 0 (by decide)⟩

end Wss
